import Mathlib

/-!
# Verification of the libzbc core (`src/lib/zbc.c`) against its specification

This file shallowly embeds the parts of `src/lib/zbc.c` that the claims
C1-C10 are about, and proves (or refutes) each claim.

Modelling conventions:
* C `uint64_t`/`size_t` values are `Nat`; where C overflow semantics matter
  the arithmetic is taken modulo `2^64` explicitly (`u64sub`, the `% u64Mod`
  occurrences below).
* Fallible C functions returning `0` or a negative `errno` become
  `Except Int ...`; success carries the data written through out-pointers.
* The backend driver vtable (`dev->zbd_drv`) is embedded as function-valued
  fields of `ZbcDevice`, so a theorem quantified over all `ZbcDevice` values
  holds for every possible backend behaviour.
* `while` loops become structural recursion on an explicit fuel argument.
  At every call site the fuel passed is provably larger than the number of
  iterations the loop can perform (each iteration strictly increases a
  bounded counter), so the out-of-fuel branch (`.error (-1000)`, a value no
  code path produces) is unreachable; the proofs below never use it.
* Numeric error codes follow Linux errno: `EIO=5`, `ENXIO=6`, `ENOMEM=12`,
  `ENODEV=19`, `EINVAL=22`, returned negated as in the C code.

Declarations that embed code from headers that are not part of `src/`
(`zbc.h`, `zbc_sg.h`) carry a doc comment starting with `Modelled from the
spec:` and are written from the specification's words.
-/

/-- `2^64`, the modulus of C `uint64_t`/`size_t` arithmetic. -/
def u64Mod : Nat := 18446744073709551616

/-- `SSIZE_MAX` on a 64-bit platform, used by the I/O size guards. -/
def ssizeMax : Nat := 9223372036854775807

/-- C `uint64_t` subtraction `a - b` (both operands below `2^64`). -/
def u64sub (a b : Nat) : Nat := (a + u64Mod - b) % u64Mod

/-- Zone descriptor, `struct zbc_zone` (fields used by `zbc.c`). -/
structure ZbcZone where
  zbz_type : Nat
  zbz_condition : Nat
  zbz_length : Nat
  zbz_start : Nat
  zbz_write_pointer : Nat
  zbz_need_reset : Bool
  zbz_non_seq : Bool
deriving DecidableEq

/-- The all-zero zone descriptor (used as the default for `getLastD`;
the code only reads `zones[nz-1]` when `nz ≥ 1`, so the default is never
the value actually used). -/
def zbcZone0 : ZbcZone := ⟨0, 0, 0, 0, 0, false, false⟩

/-- A ZBC device handle: the `zbc_device_info` geometry fields read by
`zbc.c`, the test-mode flag, and the backend vtable entries as oracles.
`zbd_report_zones_fill sector ro limit` stands for
`(dev->zbd_drv->zbd_report_zones)(dev, sector, ro, buf, &n)` with `n = limit`
on entry and a non-NULL `buf`: it yields the zones written and the returned
count (their number), or the negative error. `zbd_report_zones_count` is the
same call with a NULL buffer. `zbd_preadv n off` / `zbd_pwritev n off` stand
for the backend vector I/O on `n` sectors at sector `off`, returning sectors
transferred or a negative error. -/
structure ZbcDevice where
  zbd_sectors : Nat
  zbd_lblock_size : Nat
  zbd_pblock_size : Nat
  zbd_max_rw_sectors : Nat
  testMode : Bool
  zbd_report_zones_count : Nat → Nat → Except Int Nat
  zbd_report_zones_fill : Nat → Nat → Nat → Except Int (List ZbcZone)
  zbd_preadv : Nat → Nat → Int
  zbd_pwritev : Nat → Nat → Int

/-- Modelled from the spec: `zbc_ro_mask` (in `zbc.h`, which is not under
`src/`) keeps the low 4 bits of the reporting options — "Reporting options
(low 4 bits) filter by condition/type". -/
def zbc_ro_mask (ro : Nat) : Nat := ro &&& 0xf

/-- Modelled from the spec: the `PARTIAL` reporting-option bit
(`ZBC_RO_PARTIAL` in `zbc.h`, not under `src/`), a single option bit outside
the 4-bit filter mask that `zbc_report_zones` ORs into the masked options. -/
def ZBC_RO_PARTIAL_FLAG : Nat := 0x80

/-- Modelled from the spec: `zbc_test_mode(dev)` (in `zbc.h`, not under
`src/`), the device's test-mode predicate; embedded as a flag of the handle. -/
def zbc_test_mode (dev : ZbcDevice) : Bool := dev.testMode

/-- Modelled from the spec: `zbc_dev_sect_laligned` (in `zbc.h`, not under
`src/`) — a sector count/address is logical-block aligned when the
corresponding byte count (`sect * 512`) is a multiple of the logical block
size. -/
def zbc_dev_sect_laligned (dev : ZbcDevice) (sect : Nat) : Prop :=
  sect * 512 % dev.zbd_lblock_size = 0

instance (dev : ZbcDevice) (sect : Nat) : Decidable (zbc_dev_sect_laligned dev sect) :=
  inferInstanceAs (Decidable (_ = 0))

/-- Modelled from the spec: `zbc_dev_sect_paligned` (in `zbc.h`, not under
`src/`) — same as `zbc_dev_sect_laligned` with the physical block size. -/
def zbc_dev_sect_paligned (dev : ZbcDevice) (sect : Nat) : Prop :=
  sect * 512 % dev.zbd_pblock_size = 0

instance (dev : ZbcDevice) (sect : Nat) : Decidable (zbc_dev_sect_paligned dev sect) :=
  inferInstanceAs (Decidable (_ = 0))

/-- The `while (nz < *nr_zones)` loop of `zbc_report_zones`
(`src/lib/zbc.c:503-529`). `acc` is `zones[0..nz)`, `sector` the current
start sector. Each round asks the backend for `*nr_zones - nz` zones with
`zbc_ro_mask(ro) | ZBC_RO_PARTIAL`; a backend error is returned; zero zones
end the loop; otherwise the zones are appended and the loop either stops
(last zone ends at or past capacity) or continues from `last.start +
last.length`. Fuel: every iteration that recurses appends at least one zone
while `nz < nrZones` holds, so `nrZones - nz + 1` iterations cannot be
exceeded; callers pass at least that, making the `0` branch unreachable. -/
def zbc_report_zones_loop (dev : ZbcDevice) (ro nrZones : Nat) :
    Nat → Nat → List ZbcZone → Except Int (List ZbcZone)
  | 0, _, _ => .error (-1000)
  | fuel + 1, sector, acc =>
    if acc.length < nrZones then
      match dev.zbd_report_zones_fill sector
          (zbc_ro_mask ro ||| ZBC_RO_PARTIAL_FLAG) (nrZones - acc.length) with
      | .error e => .error e
      | .ok zs =>
        if zs = [] then .ok acc
        else
          let acc2 := acc ++ zs
          let last := acc2.getLastD zbcZone0
          if dev.zbd_sectors ≤ last.zbz_start + last.zbz_length then .ok acc2
          else zbc_report_zones_loop dev ro nrZones fuel
            (last.zbz_start + last.zbz_length) acc2
    else .ok acc

/-- `zbc_report_zones` (`src/lib/zbc.c:479-534`) with a non-NULL `zones`
buffer: on success the result list is `zones[0..*nr_zones)` after the call,
`nrZones` is `*nr_zones` on entry (the buffer capacity). -/
def zbc_report_zones (dev : ZbcDevice) (sector ro nrZones : Nat) :
    Except Int (List ZbcZone) :=
  if zbc_test_mode dev = false ∧ dev.zbd_sectors ≤ sector then .ok []
  else zbc_report_zones_loop dev ro nrZones (nrZones + 1) sector []

/-- `zbc_report_zones` (`src/lib/zbc.c:479-500`) with a NULL `zones` buffer:
`*nr_zones` is set to 0 and the backend is asked for the total count with the
masked options. -/
def zbc_report_zones_null (dev : ZbcDevice) (sector ro : Nat) : Except Int Nat :=
  if zbc_test_mode dev = false ∧ dev.zbd_sectors ≤ sector then .ok 0
  else dev.zbd_report_zones_count sector (zbc_ro_mask ro)

/-- Modelled from the spec: `zbc_report_nr_zones` (in `zbc.h`, not under
`src/`) is the count query — `zbc_report_zones` with a NULL buffer. -/
def zbc_report_nr_zones (dev : ZbcDevice) (sector ro : Nat) : Except Int Nat :=
  zbc_report_zones_null dev sector ro

/-- `zbc_list_zones` (`src/lib/zbc.c:539-578`): count query, allocation of
exactly that many descriptors (allocation success is assumed; a `calloc`
failure would return `-ENOMEM`), then `zbc_report_zones` into the buffer.
On success the returned list is the caller-owned buffer `*pzones` truncated
to `*pnr_zones`. -/
def zbc_list_zones (dev : ZbcDevice) (sector ro : Nat) : Except Int (List ZbcZone) :=
  match zbc_report_nr_zones dev sector (zbc_ro_mask ro) with
  | .error e => .error e
  | .ok nr_zones =>
    if nr_zones = 0 then .ok []
    else
      match zbc_report_zones dev sector (zbc_ro_mask ro) nr_zones with
      | .error e => .error e
      | .ok zones => .ok zones

/-- The reporting process described by claim C1, written from the claim's
words as a relation between the loop entry state (`sector`, zones
accumulated so far) and the final outcome: zones are accumulated by repeated
backend calls carrying `zbc_ro_mask ro ||| ZBC_RO_PARTIAL_FLAG` and a limit
of `nrZones` minus the zones already accumulated; after a round the start
sector advances to `last.start + last.length`; the process ends when the
count is reached, when the backend returns zero zones, or when the new start
sector is at or past capacity, yielding `.ok` of the accumulated zones; a
backend error is returned as such. -/
inductive ReportZonesSpec (dev : ZbcDevice) (ro nrZones : Nat) :
    Nat → List ZbcZone → Except Int (List ZbcZone) → Prop where
  | count_reached (sector : Nat) (acc : List ZbcZone) :
      nrZones ≤ acc.length →
      ReportZonesSpec dev ro nrZones sector acc (.ok acc)
  | backend_error (sector : Nat) (acc : List ZbcZone) (e : Int) :
      acc.length < nrZones →
      dev.zbd_report_zones_fill sector (zbc_ro_mask ro ||| ZBC_RO_PARTIAL_FLAG)
        (nrZones - acc.length) = .error e →
      ReportZonesSpec dev ro nrZones sector acc (.error e)
  | backend_done (sector : Nat) (acc : List ZbcZone) :
      acc.length < nrZones →
      dev.zbd_report_zones_fill sector (zbc_ro_mask ro ||| ZBC_RO_PARTIAL_FLAG)
        (nrZones - acc.length) = .ok [] →
      ReportZonesSpec dev ro nrZones sector acc (.ok acc)
  | capacity_reached (sector : Nat) (acc zs : List ZbcZone) :
      acc.length < nrZones →
      dev.zbd_report_zones_fill sector (zbc_ro_mask ro ||| ZBC_RO_PARTIAL_FLAG)
        (nrZones - acc.length) = .ok zs →
      zs ≠ [] →
      dev.zbd_sectors ≤ ((acc ++ zs).getLastD zbcZone0).zbz_start +
        ((acc ++ zs).getLastD zbcZone0).zbz_length →
      ReportZonesSpec dev ro nrZones sector acc (.ok (acc ++ zs))
  | advance (sector : Nat) (acc zs : List ZbcZone) (res : Except Int (List ZbcZone)) :
      acc.length < nrZones →
      dev.zbd_report_zones_fill sector (zbc_ro_mask ro ||| ZBC_RO_PARTIAL_FLAG)
        (nrZones - acc.length) = .ok zs →
      zs ≠ [] →
      ((acc ++ zs).getLastD zbcZone0).zbz_start +
        ((acc ++ zs).getLastD zbcZone0).zbz_length < dev.zbd_sectors →
      ReportZonesSpec dev ro nrZones
        (((acc ++ zs).getLastD zbcZone0).zbz_start +
          ((acc ++ zs).getLastD zbcZone0).zbz_length) (acc ++ zs) res →
      ReportZonesSpec dev ro nrZones sector acc res

/-- Every run of the report loop with sufficient fuel satisfies the claimed
reporting process. -/
theorem zbc_report_zones_loop_spec (dev : ZbcDevice) (ro nrZones : Nat) :
    ∀ (fuel sector : Nat) (acc : List ZbcZone), nrZones - acc.length < fuel →
      ReportZonesSpec dev ro nrZones sector acc
        (zbc_report_zones_loop dev ro nrZones fuel sector acc) := by
  intro fuel
  induction fuel with
  | zero => intro sector acc h; omega
  | succ fuel ih =>
    intro sector acc h
    by_cases hg : acc.length < nrZones
    · rcases hfill : dev.zbd_report_zones_fill sector
          (zbc_ro_mask ro ||| ZBC_RO_PARTIAL_FLAG) (nrZones - acc.length) with e | zs
      · have : zbc_report_zones_loop dev ro nrZones (fuel + 1) sector acc = .error e := by
          simp only [zbc_report_zones_loop, if_pos hg, hfill]
        rw [this]
        exact .backend_error sector acc e hg hfill
      · by_cases hzs : zs = []
        · have : zbc_report_zones_loop dev ro nrZones (fuel + 1) sector acc = .ok acc := by
            simp only [zbc_report_zones_loop, if_pos hg, hfill, if_pos hzs]
          rw [this]
          subst hzs
          exact .backend_done sector acc hg hfill
        · by_cases hcap : dev.zbd_sectors ≤ ((acc ++ zs).getLastD zbcZone0).zbz_start +
              ((acc ++ zs).getLastD zbcZone0).zbz_length
          · have : zbc_report_zones_loop dev ro nrZones (fuel + 1) sector acc =
                .ok (acc ++ zs) := by
              simp only [zbc_report_zones_loop, if_pos hg, hfill, if_neg hzs, if_pos hcap]
            rw [this]
            exact .capacity_reached sector acc zs hg hfill hzs hcap
          · have hstep : zbc_report_zones_loop dev ro nrZones (fuel + 1) sector acc =
                zbc_report_zones_loop dev ro nrZones fuel
                  (((acc ++ zs).getLastD zbcZone0).zbz_start +
                    ((acc ++ zs).getLastD zbcZone0).zbz_length) (acc ++ zs) := by
              simp only [zbc_report_zones_loop, if_pos hg, hfill, if_neg hzs, if_neg hcap]
            rw [hstep]
            have hlen : 0 < zs.length := List.length_pos.mpr hzs
            refine .advance sector acc zs _ hg hfill hzs (by omega) ?_
            exact ih _ _ (by simp [List.length_append]; omega)
    · have : zbc_report_zones_loop dev ro nrZones (fuel + 1) sector acc = .ok acc := by
        simp only [zbc_report_zones_loop, if_neg hg]
      rw [this]
      exact .count_reached sector acc (by omega)

/-- C1: for every device and every non-NULL zones buffer (here: every buffer
capacity `nrZones`), whenever `zbc_report_zones` reaches its accumulation
loop (the device is in test mode or the start sector is below capacity, the
complementary case being claim C10), its result is produced exactly by the
claimed process `ReportZonesSpec`: repeated backend calls with the `PARTIAL`
bit OR-ed into the masked reporting options, each requesting `nrZones` minus
the zones already accumulated, advancing the start sector to
`last.start + last.length`, terminating on an empty round, on reaching
`nrZones` zones, or on reaching device capacity, returning the accumulated
zones on success and the backend's error on failure. The device (hence the
backend oracle) is universally quantified. -/
theorem c1_zbc_report_zones_follows_spec (dev : ZbcDevice) (sector ro nrZones : Nat)
    (h : zbc_test_mode dev = true ∨ sector < dev.zbd_sectors) :
    ReportZonesSpec dev ro nrZones sector []
      (zbc_report_zones dev sector ro nrZones) := by
  have hcond : ¬ (zbc_test_mode dev = false ∧ dev.zbd_sectors ≤ sector) := by
    rcases h with h | h
    · intro hc; rw [h] at hc; exact absurd hc.1 (by simp)
    · intro hc; omega
  unfold zbc_report_zones
  rw [if_neg hcond]
  exact zbc_report_zones_loop_spec dev ro nrZones (nrZones + 1) sector [] (by simp)

/-- Concrete device used by witnesses: 16-sector capacity, two zones. -/
def devW : ZbcDevice :=
  ⟨16, 512, 4096, 4, false,
   fun _ _ => .ok 2,
   fun s _ n =>
     if s = 0 ∧ 0 < n then .ok [⟨1, 1, 10, 0, 0, false, false⟩]
     else if s = 10 ∧ 0 < n then .ok [⟨2, 1, 6, 10, 10, false, false⟩]
     else .ok [],
   fun n _ => Int.ofNat n,
   fun n _ => Int.ofNat n⟩

/-- Witness for C1 at a concrete device and input. -/
theorem c1_witness :
    ReportZonesSpec devW 0 2 0 [] (zbc_report_zones devW 0 0 2) :=
  c1_zbc_report_zones_follows_spec devW 0 0 2 (Or.inr (by decide))

/-- C10: on a device not in test mode, a start sector at or past capacity
makes `zbc_report_zones` report zero zones and succeed at once, in the
count-query form (`zones == NULL`) and in the buffer-filling form. The
backend oracles inside `dev` are universally quantified and unused, so the
backend is not invoked. -/
theorem c10_report_zones_beyond_capacity (dev : ZbcDevice) (sector ro nrZones : Nat)
    (htest : zbc_test_mode dev = false) (hsec : dev.zbd_sectors ≤ sector) :
    zbc_report_zones_null dev sector ro = .ok 0 ∧
    zbc_report_zones dev sector ro nrZones = .ok [] := by
  constructor
  · unfold zbc_report_zones_null
    rw [if_pos ⟨htest, hsec⟩]
  · unfold zbc_report_zones
    rw [if_pos ⟨htest, hsec⟩]

/-- Witness for C10 at a concrete device and start sector. -/
theorem c10_witness :
    zbc_report_zones_null devW 16 0 = .ok 0 ∧
    zbc_report_zones devW 16 0 5 = .ok [] :=
  c10_report_zones_beyond_capacity devW 16 0 5 (by decide) (by decide)

/-- Modelled from the spec: `zbc_iov_count` (in `zbc.h`, not under `src/`) —
the total I/O size is the sum of the vector lengths, in 512-byte sectors
(`size_t` arithmetic, hence modulo `2^64`). The embedding keeps each
`iovec` as its sector length; the data pointers do not affect any value
proved about below. -/
def zbc_iov_count (iov : List Nat) : Nat := iov.sum % u64Mod

/-- The read loop of `zbc_do_preadv` (`src/lib/zbc.c:688-711`): `count` is
the (possibly clamped) total, `k` is `rd_iov_offset`. Each round requests
`min (count - k) max_rw_sectors` sectors from the backend at the current
offset; a non-positive return aborts with the error (or `-EIO` for zero);
otherwise offset and cursor advance by the sectors transferred. Fuel: each
round that recurses advances `k` by at least one while `k < count`, so
`count - k + 1` rounds cannot be exceeded; callers pass at least that. -/
def zbc_preadv_loop (dev : ZbcDevice) (count : Nat) :
    Nat → Nat → Nat → Int
  | 0, _, _ => -1000
  | fuel + 1, offset, k =>
    if k < count then
      let n := min (count - k) dev.zbd_max_rw_sectors
      let ret := dev.zbd_preadv n offset
      if ret ≤ 0 then (if ret = 0 then -5 else ret)
      else zbc_preadv_loop dev count fuel (offset + ret.toNat) (k + ret.toNat)
    else Int.ofNat count

/-- The write loop of `zbc_do_pwritev` (`src/lib/zbc.c:796-819`), identical
to `zbc_preadv_loop` with the write backend call. -/
def zbc_pwritev_loop (dev : ZbcDevice) (count : Nat) :
    Nat → Nat → Nat → Int
  | 0, _, _ => -1000
  | fuel + 1, offset, k =>
    if k < count then
      let n := min (count - k) dev.zbd_max_rw_sectors
      let ret := dev.zbd_pwritev n offset
      if ret ≤ 0 then (if ret = 0 then -5 else ret)
      else zbc_pwritev_loop dev count fuel (offset + ret.toNat) (k + ret.toNat)
    else Int.ofNat count

/-- `zbc_do_preadv` (`src/lib/zbc.c:634-714`). The `iov` is the list of
vector lengths in sectors, `offset` the start sector. The
`zbc_test_mode(dev) && count == 0` block after the validations
(`src/lib/zbc.c:675-686`) is kept although it is unreachable (test mode with
`count == 0` has already returned `-EINVAL`). -/
def zbc_do_preadv (dev : ZbcDevice) (iov : List Nat) (offset : Nat) : Int :=
  let count := zbc_iov_count iov
  if count * 512 % u64Mod > ssizeMax then -22
  else if zbc_test_mode dev then
    if count = 0 then -22
    else if zbc_test_mode dev ∧ count = 0 then dev.zbd_preadv 0 offset
    else zbc_preadv_loop dev count (count + 1) offset 0
  else
    if ¬ zbc_dev_sect_laligned dev count ∨ ¬ zbc_dev_sect_laligned dev offset then -22
    else
      let count2 := if (offset + count) % u64Mod > dev.zbd_sectors
        then u64sub dev.zbd_sectors offset else count
      if count2 = 0 ∨ dev.zbd_sectors ≤ offset then 0
      else zbc_preadv_loop dev count2 (count2 + 1) offset 0

/-- `zbc_do_pwritev` (`src/lib/zbc.c:742-822`), identical to `zbc_do_preadv`
with physical-block alignment checks and the write loop. -/
def zbc_do_pwritev (dev : ZbcDevice) (iov : List Nat) (offset : Nat) : Int :=
  let count := zbc_iov_count iov
  if count * 512 % u64Mod > ssizeMax then -22
  else if zbc_test_mode dev then
    if count = 0 then -22
    else if zbc_test_mode dev ∧ count = 0 then dev.zbd_pwritev 0 offset
    else zbc_pwritev_loop dev count (count + 1) offset 0
  else
    if ¬ zbc_dev_sect_paligned dev count ∨ ¬ zbc_dev_sect_paligned dev offset then -22
    else
      let count2 := if (offset + count) % u64Mod > dev.zbd_sectors
        then u64sub dev.zbd_sectors offset else count
      if count2 = 0 ∨ dev.zbd_sectors ≤ offset then 0
      else zbc_pwritev_loop dev count2 (count2 + 1) offset 0

/-- `zbc_pread` (`src/lib/zbc.c:719-725`): single-vector read. -/
def zbc_pread (dev : ZbcDevice) (count offset : Nat) : Int :=
  zbc_do_preadv dev [count] offset

/-- `zbc_preadv` (`src/lib/zbc.c:730-737`): rejects an empty vector. -/
def zbc_preadv (dev : ZbcDevice) (iov : List Nat) (offset : Nat) : Int :=
  if iov = [] then -22 else zbc_do_preadv dev iov offset

/-- `zbc_pwrite` (`src/lib/zbc.c:827-833`): single-vector write. -/
def zbc_pwrite (dev : ZbcDevice) (count offset : Nat) : Int :=
  zbc_do_pwritev dev [count] offset

/-- `zbc_pwritev` (`src/lib/zbc.c:838-845`): rejects an empty vector. -/
def zbc_pwritev (dev : ZbcDevice) (iov : List Nat) (offset : Nat) : Int :=
  if iov = [] then -22 else zbc_do_pwritev dev iov offset

/-- If every backend read transfers a positive sector count, the read loop
consumes the whole request and returns `count`. -/
theorem zbc_preadv_loop_total (dev : ZbcDevice)
    (hpos : ∀ n off, 0 < dev.zbd_preadv n off) (count : Nat) :
    ∀ (fuel offset k : Nat), count - k < fuel →
      zbc_preadv_loop dev count fuel offset k = Int.ofNat count := by
  intro fuel
  induction fuel with
  | zero => intro offset k h; omega
  | succ fuel ih =>
    intro offset k h
    by_cases hk : k < count
    · have hp := hpos (min (count - k) dev.zbd_max_rw_sectors) offset
      have hnle : ¬ dev.zbd_preadv (min (count - k) dev.zbd_max_rw_sectors) offset ≤ 0 := by
        omega
      simp only [zbc_preadv_loop, if_pos hk, if_neg hnle]
      refine ih _ _ ?_
      have : 0 < (dev.zbd_preadv (min (count - k) dev.zbd_max_rw_sectors) offset).toNat := by
        omega
      omega
    · simp only [zbc_preadv_loop, if_neg hk]

/-- If every backend write transfers a positive sector count, the write loop
consumes the whole request and returns `count`. -/
theorem zbc_pwritev_loop_total (dev : ZbcDevice)
    (hpos : ∀ n off, 0 < dev.zbd_pwritev n off) (count : Nat) :
    ∀ (fuel offset k : Nat), count - k < fuel →
      zbc_pwritev_loop dev count fuel offset k = Int.ofNat count := by
  intro fuel
  induction fuel with
  | zero => intro offset k h; omega
  | succ fuel ih =>
    intro offset k h
    by_cases hk : k < count
    · have hp := hpos (min (count - k) dev.zbd_max_rw_sectors) offset
      have hnle : ¬ dev.zbd_pwritev (min (count - k) dev.zbd_max_rw_sectors) offset ≤ 0 := by
        omega
      simp only [zbc_pwritev_loop, if_pos hk, if_neg hnle]
      refine ih _ _ ?_
      have : 0 < (dev.zbd_pwritev (min (count - k) dev.zbd_max_rw_sectors) offset).toNat := by
        omega
      omega
    · simp only [zbc_pwritev_loop, if_neg hk]

/-- C2: on a device not in test mode, an aligned read or write whose sector
offset plus total sector count exceeds the device capacity is clamped to
`capacity - offset` sectors: that clamped count is transferred (snipped into
backend rounds of at most `max_rw_sectors`, each hypothesised to make
positive progress) and returned, the result being `0` exactly when the
clamped count is zero, i.e. when the offset is at or past capacity. The
bound `offset + count < 2^64` keeps the claim's arithmetic reading of
"offset plus count exceeds capacity" within the `uint64_t` range the code
computes in. -/
theorem c2_read_write_clamped_at_capacity (dev : ZbcDevice) (iov : List Nat) (offset : Nat)
    (htest : zbc_test_mode dev = false)
    (hsz : zbc_iov_count iov * 512 ≤ ssizeMax)
    (hover : dev.zbd_sectors < offset + zbc_iov_count iov)
    (hnowrap : offset + zbc_iov_count iov < u64Mod) :
    (zbc_dev_sect_laligned dev (zbc_iov_count iov) → zbc_dev_sect_laligned dev offset →
      (∀ n off, 0 < dev.zbd_preadv n off) →
      zbc_do_preadv dev iov offset = Int.ofNat (dev.zbd_sectors - offset)) ∧
    (zbc_dev_sect_paligned dev (zbc_iov_count iov) → zbc_dev_sect_paligned dev offset →
      (∀ n off, 0 < dev.zbd_pwritev n off) →
      zbc_do_pwritev dev iov offset = Int.ofNat (dev.zbd_sectors - offset)) := by
  have humax : ssizeMax < u64Mod := by decide
  have hc1 : ¬ (zbc_iov_count iov * 512 % u64Mod > ssizeMax) := by
    rw [Nat.mod_eq_of_lt (by omega)]; omega
  have hclamp : (offset + zbc_iov_count iov) % u64Mod > dev.zbd_sectors := by
    rw [Nat.mod_eq_of_lt hnowrap]; omega
  have hsub : dev.zbd_sectors ≤ offset ∨
      u64sub dev.zbd_sectors offset = dev.zbd_sectors - offset := by
    by_cases hoff : dev.zbd_sectors ≤ offset
    · exact Or.inl hoff
    · refine Or.inr ?_
      unfold u64sub
      have h1 : dev.zbd_sectors + u64Mod - offset = u64Mod + (dev.zbd_sectors - offset) := by
        omega
      rw [h1, Nat.add_mod_left, Nat.mod_eq_of_lt (by omega)]
  constructor
  · intro hla hlo hpos
    simp only [zbc_do_preadv, htest, Bool.false_eq_true, if_false, if_neg hc1]
    rw [if_neg (by push_neg; exact ⟨hla, hlo⟩), if_pos hclamp]
    rcases hsub with hoff | hval
    · rw [if_pos (Or.inr hoff)]
      have : dev.zbd_sectors - offset = 0 := by omega
      rw [this]; rfl
    · by_cases hoff : dev.zbd_sectors ≤ offset
      · rw [if_pos (Or.inr hoff)]
        have : dev.zbd_sectors - offset = 0 := by omega
        rw [this]; rfl
      · rw [hval, if_neg (by push_neg; exact ⟨by omega, by omega⟩)]
        exact zbc_preadv_loop_total dev hpos _ _ offset 0 (by omega)
  · intro hpa hpo hpos
    simp only [zbc_do_pwritev, htest, Bool.false_eq_true, if_false, if_neg hc1]
    rw [if_neg (by push_neg; exact ⟨hpa, hpo⟩), if_pos hclamp]
    rcases hsub with hoff | hval
    · rw [if_pos (Or.inr hoff)]
      have : dev.zbd_sectors - offset = 0 := by omega
      rw [this]; rfl
    · by_cases hoff : dev.zbd_sectors ≤ offset
      · rw [if_pos (Or.inr hoff)]
        have : dev.zbd_sectors - offset = 0 := by omega
        rw [this]; rfl
      · rw [hval, if_neg (by push_neg; exact ⟨by omega, by omega⟩)]
        exact zbc_pwritev_loop_total dev hpos _ _ offset 0 (by omega)

/-- Concrete device used by the C2 witness: capacity 128 sectors, logical
and physical block size 512 B, a backend that always transfers the full
request. -/
def devC : ZbcDevice :=
  ⟨128, 512, 512, 64, false,
   fun _ _ => .ok 0,
   fun _ _ _ => .ok [],
   fun n _ => Int.ofNat (max n 1),
   fun n _ => Int.ofNat (max n 1)⟩

/-- Witness for C2: the claim's own concrete instance — a read of 8 sectors
starting at `capacity - 4` returns 4 (and so does the matching write). -/
theorem c2_witness :
    zbc_do_preadv devC [8] 124 = 4 ∧ zbc_do_pwritev devC [8] 124 = 4 := by
  have h := c2_read_write_clamped_at_capacity devC [8] 124 (by decide) (by decide)
    (by decide) (by decide)
  exact ⟨h.1 (by decide) (by decide) (fun n off => by simp [devC]),
         h.2 (by decide) (by decide) (fun n off => by simp [devC])⟩

/-- C3: on a device not in test mode, the read entry points
(`zbc_pread`/`zbc_preadv`, via `zbc_do_preadv`) return `-EINVAL` when the
total sector count or the sector offset is not logical-block aligned, while
the write entry points (`zbc_pwrite`/`zbc_pwritev`, via `zbc_do_pwritev`)
return `-EINVAL` when either is not physical-block aligned. The device (and
with it both backend I/O oracles) is universally quantified, and neither
oracle occurs in the `-EINVAL` paths, so the backend is not called. -/
theorem c3_alignment_checks (dev : ZbcDevice) (iov : List Nat) (count offset : Nat)
    (htest : zbc_test_mode dev = false) (hcount : count < u64Mod) :
    ((¬ zbc_dev_sect_laligned dev (zbc_iov_count iov) ∨ ¬ zbc_dev_sect_laligned dev offset) →
      zbc_do_preadv dev iov offset = -22 ∧ zbc_preadv dev iov offset = -22) ∧
    ((¬ zbc_dev_sect_laligned dev count ∨ ¬ zbc_dev_sect_laligned dev offset) →
      zbc_pread dev count offset = -22) ∧
    ((¬ zbc_dev_sect_paligned dev (zbc_iov_count iov) ∨ ¬ zbc_dev_sect_paligned dev offset) →
      zbc_do_pwritev dev iov offset = -22 ∧ zbc_pwritev dev iov offset = -22) ∧
    ((¬ zbc_dev_sect_paligned dev count ∨ ¬ zbc_dev_sect_paligned dev offset) →
      zbc_pwrite dev count offset = -22) := by
  have hread : ∀ (iov2 : List Nat),
      (¬ zbc_dev_sect_laligned dev (zbc_iov_count iov2) ∨
        ¬ zbc_dev_sect_laligned dev offset) →
      zbc_do_preadv dev iov2 offset = -22 := by
    intro iov2 hmis
    simp only [zbc_do_preadv, htest, Bool.false_eq_true, if_false]
    by_cases hg : zbc_iov_count iov2 * 512 % u64Mod > ssizeMax
    · rw [if_pos hg]
    · rw [if_neg hg, if_pos hmis]
  have hwrite : ∀ (iov2 : List Nat),
      (¬ zbc_dev_sect_paligned dev (zbc_iov_count iov2) ∨
        ¬ zbc_dev_sect_paligned dev offset) →
      zbc_do_pwritev dev iov2 offset = -22 := by
    intro iov2 hmis
    simp only [zbc_do_pwritev, htest, Bool.false_eq_true, if_false]
    by_cases hg : zbc_iov_count iov2 * 512 % u64Mod > ssizeMax
    · rw [if_pos hg]
    · rw [if_neg hg, if_pos hmis]
  have hsingle : zbc_iov_count [count] = count := by
    simp [zbc_iov_count, Nat.mod_eq_of_lt hcount]
  refine ⟨?_, ?_, ?_, ?_⟩
  · intro hmis
    refine ⟨hread iov hmis, ?_⟩
    unfold zbc_preadv
    by_cases hnil : iov = []
    · rw [if_pos hnil]
    · rw [if_neg hnil]; exact hread iov hmis
  · intro hmis
    unfold zbc_pread
    exact hread [count] (by rw [hsingle]; exact hmis)
  · intro hmis
    refine ⟨hwrite iov hmis, ?_⟩
    unfold zbc_pwritev
    by_cases hnil : iov = []
    · rw [if_pos hnil]
    · rw [if_neg hnil]; exact hwrite iov hmis
  · intro hmis
    unfold zbc_pwrite
    exact hwrite [count] (by rw [hsingle]; exact hmis)

/-- Concrete device used by the C3 witness: 4096-byte logical and physical
blocks, so a single odd sector is misaligned for both reads and writes. -/
def devA : ZbcDevice :=
  ⟨1024, 4096, 4096, 64, false,
   fun _ _ => .ok 0,
   fun _ _ _ => .ok [],
   fun n _ => Int.ofNat n,
   fun n _ => Int.ofNat n⟩

/-- Witness for C3: a 1-sector read and write at sector 0 are rejected with
`-EINVAL` on 4096-byte blocks. -/
theorem c3_witness :
    zbc_pread devA 1 0 = -22 ∧ zbc_pwrite devA 1 0 = -22 := by
  have h := c3_alignment_checks devA [1] 1 0 (by decide) (by decide)
  exact ⟨h.2.1 (Or.inl (by decide)), h.2.2.2 (Or.inl (by decide))⟩

/-- Modelled from the spec: the backend-restrict flag of the block backend
(`ZBC_O_DRV_BLOCK` in `zbc.h`, not under `src/`); the four `O_DRV_*` flags
are distinct bits of a 4-bit mask, in backend order. -/
def ZBC_O_DRV_BLOCK : Nat := 0x01

/-- Modelled from the spec: the backend-restrict flag of the SCSI backend. -/
def ZBC_O_DRV_SCSI : Nat := 0x02

/-- Modelled from the spec: the backend-restrict flag of the ATA backend. -/
def ZBC_O_DRV_ATA : Nat := 0x04

/-- Modelled from the spec: the backend-restrict flag of the emulator
backend. -/
def ZBC_O_DRV_FAKE : Nat := 0x08

/-- Modelled from the spec: the union of all backend-restrict flags
(`ZBC_O_DRV_MASK` in `zbc.h`, not under `src/`). -/
def ZBC_O_DRV_MASK_ALL : Nat := 0x0f

/-- One entry of the `zbc_drv[]` backend table (`src/lib/zbc.c:31-37`) for a
fixed device path: its restrict flag and the result its `zbd_open` would
return on that path (`0`, `-ENXIO`, or another negative error). -/
structure ZbcDrvEntry where
  flag : Nat
  zbd_open : Int
deriving DecidableEq

/-- The probing loop of `zbc_open` (`src/lib/zbc.c:350-370`): walk the
backend table; skip entries whose flag is not in `allowed_drv`; a `0` open
fixes that backend (index `i`) and returns 0; `-ENXIO` moves on to the next
entry; any other error is returned at once with no backend fixed; falling
off the end returns the last `ret` (`-ENODEV` if nothing was tried). -/
def zbc_open_loop : List ZbcDrvEntry → Nat → Nat → Int → Int × Option Nat
  | [], _, _, ret => (ret, none)
  | d :: rest, allowed, i, ret =>
    if d.flag &&& allowed = 0 then zbc_open_loop rest allowed (i + 1) ret
    else if d.zbd_open = 0 then (0, some i)
    else if d.zbd_open = -6 then zbc_open_loop rest allowed (i + 1) (-6)
    else (d.zbd_open, none)

/-- The `allowed_drv` computation of `zbc_open` (`src/lib/zbc.c:343-348`):
the restrict mask from `flags`, an empty mask meaning all backends, with the
block backend removed when the host OS lacks `linux/blkzoned.h`
(`haveBlkZoned = false`). -/
def zbc_allowed_drv (flags : Nat) (haveBlkZoned : Bool) : Nat :=
  let a0 := flags &&& ZBC_O_DRV_MASK_ALL
  let a1 := if a0 = 0 then ZBC_O_DRV_MASK_ALL else a0
  if haveBlkZoned then a1
  else a1 &&& (ZBC_O_DRV_SCSI ||| ZBC_O_DRV_ATA ||| ZBC_O_DRV_FAKE)

/-- The restrict flag of the backend at position `i` of the fixed table
`[block, scsi, ata, fake]`. -/
def zbc_drv_flag : Nat → Nat
  | 0 => ZBC_O_DRV_BLOCK
  | 1 => ZBC_O_DRV_SCSI
  | 2 => ZBC_O_DRV_ATA
  | 3 => ZBC_O_DRV_FAKE
  | _ => 0

/-- `zbc_open` (`src/lib/zbc.c:332-375`) after the path resolution step
(`zbc_realpath`, whose failure returns before any probing): probe the fixed
backend table in order with the computed `allowed_drv`. `opens i` is the
result backend `i`'s `zbd_open` would return for this path and flags. The
result pairs the return value with the index of the backend fixed in the
handle (`none` when the open failed). -/
def zbc_open (opens : Fin 4 → Int) (flags : Nat) (haveBlkZoned : Bool) :
    Int × Option Nat :=
  zbc_open_loop
    [⟨ZBC_O_DRV_BLOCK, opens 0⟩, ⟨ZBC_O_DRV_SCSI, opens 1⟩,
     ⟨ZBC_O_DRV_ATA, opens 2⟩, ⟨ZBC_O_DRV_FAKE, opens 3⟩]
    (zbc_allowed_drv flags haveBlkZoned) 0 (-19)

theorem zbc_open_loop_skip (d : ZbcDrvEntry) (rest : List ZbcDrvEntry)
    (allowed i : Nat) (ret : Int) (h : d.flag &&& allowed = 0) :
    zbc_open_loop (d :: rest) allowed i ret = zbc_open_loop rest allowed (i + 1) ret := by
  simp [zbc_open_loop, h]

theorem zbc_open_loop_hit (d : ZbcDrvEntry) (rest : List ZbcDrvEntry)
    (allowed i : Nat) (ret : Int) (h : d.flag &&& allowed ≠ 0) (h0 : d.zbd_open = 0) :
    zbc_open_loop (d :: rest) allowed i ret = (0, some i) := by
  simp [zbc_open_loop, h, h0]

theorem zbc_open_loop_next (d : ZbcDrvEntry) (rest : List ZbcDrvEntry)
    (allowed i : Nat) (ret : Int) (h : d.flag &&& allowed ≠ 0) (h6 : d.zbd_open = -6) :
    zbc_open_loop (d :: rest) allowed i ret = zbc_open_loop rest allowed (i + 1) (-6) := by
  simp [zbc_open_loop, h, h6]

theorem zbc_open_loop_fail (d : ZbcDrvEntry) (rest : List ZbcDrvEntry)
    (allowed i : Nat) (ret : Int) (h : d.flag &&& allowed ≠ 0) (h0 : d.zbd_open ≠ 0)
    (h6 : d.zbd_open ≠ -6) :
    zbc_open_loop (d :: rest) allowed i ret = (d.zbd_open, none) := by
  simp [zbc_open_loop, h, h0, h6]

/-- A prefix of entries that are each skipped or answer `-ENXIO` is walked
through, reaching the rest of the table with the position advanced. -/
theorem zbc_open_loop_reach (allowed : Nat) :
    ∀ (pre rest : List ZbcDrvEntry) (i : Nat) (ret : Int),
      (∀ d ∈ pre, d.flag &&& allowed = 0 ∨ d.zbd_open = -6) →
      ∃ r : Int, zbc_open_loop (pre ++ rest) allowed i ret =
        zbc_open_loop rest allowed (i + pre.length) r := by
  intro pre
  induction pre with
  | nil => intro rest i ret _; exact ⟨ret, by simp⟩
  | cons d pre ih =>
    intro rest i ret h
    have hd := h d (List.mem_cons_self d pre)
    have htl : ∀ d2 ∈ pre, d2.flag &&& allowed = 0 ∨ d2.zbd_open = -6 :=
      fun d2 hd2 => h d2 (List.mem_cons_of_mem d hd2)
    by_cases hskip : d.flag &&& allowed = 0
    · obtain ⟨r, hr⟩ := ih rest (i + 1) ret htl
      refine ⟨r, ?_⟩
      rw [List.cons_append, zbc_open_loop_skip _ _ _ _ _ hskip, hr, List.length_cons]
      have heq : i + 1 + pre.length = i + (pre.length + 1) := by omega
      rw [heq]
    · rcases hd with hd | hd
      · exact absurd hd hskip
      · obtain ⟨r, hr⟩ := ih rest (i + 1) (-6) htl
        refine ⟨r, ?_⟩
        rw [List.cons_append, zbc_open_loop_next _ _ _ _ _ hskip hd, hr, List.length_cons]
        have heq : i + 1 + pre.length = i + (pre.length + 1) := by omega
        rw [heq]

/-- The loop result only depends on entries whose flag is in the allowed
mask: skipped entries may carry any open result. -/
theorem zbc_open_loop_congr (allowed : Nat) :
    ∀ (ds ds2 : List ZbcDrvEntry),
      List.Forall₂ (fun d d2 => d.flag = d2.flag ∧
        (d.flag &&& allowed ≠ 0 → d.zbd_open = d2.zbd_open)) ds ds2 →
      ∀ (i : Nat) (ret : Int),
        zbc_open_loop ds allowed i ret = zbc_open_loop ds2 allowed i ret := by
  intro ds ds2 h
  induction h with
  | nil => intro i ret; rfl
  | @cons d d2 l1 l2 h1 _ ih =>
    intro i ret
    obtain ⟨hflag, hopen⟩ := h1
    by_cases hskip : d.flag &&& allowed = 0
    · rw [zbc_open_loop_skip _ _ _ _ _ hskip,
        zbc_open_loop_skip _ _ _ _ _ (by rw [← hflag]; exact hskip), ih]
    · have hopen2 := hopen hskip
      have hskip2 : d2.flag &&& allowed ≠ 0 := by rw [← hflag]; exact hskip
      by_cases h0 : d.zbd_open = 0
      · rw [zbc_open_loop_hit _ _ _ _ _ hskip h0,
          zbc_open_loop_hit _ _ _ _ _ hskip2 (by rw [← hopen2]; exact h0)]
      · by_cases h6 : d.zbd_open = -6
        · rw [zbc_open_loop_next _ _ _ _ _ hskip h6,
            zbc_open_loop_next _ _ _ _ _ hskip2 (by rw [← hopen2]; exact h6), ih]
        · rw [zbc_open_loop_fail _ _ _ _ _ hskip h0 h6,
            zbc_open_loop_fail _ _ _ _ _ hskip2 (by rw [← hopen2]; exact h0)
              (by rw [← hopen2]; exact h6), ← hopen2]

/-- The backend table of `zbc_open` for a fixed path: `zbc_drv[]`
(`src/lib/zbc.c:31-37`) in the order block, SCSI, ATA, fake. -/
def zbcTable (opens : Fin 4 → Int) : List ZbcDrvEntry :=
  [⟨ZBC_O_DRV_BLOCK, opens 0⟩, ⟨ZBC_O_DRV_SCSI, opens 1⟩,
   ⟨ZBC_O_DRV_ATA, opens 2⟩, ⟨ZBC_O_DRV_FAKE, opens 3⟩]

theorem zbc_open_eq (opens : Fin 4 → Int) (flags : Nat) (haveBlkZoned : Bool) :
    zbc_open opens flags haveBlkZoned =
      zbc_open_loop (zbcTable opens) (zbc_allowed_drv flags haveBlkZoned) 0 (-19) := rfl

/-- C4: `zbc_open` probes the backends in the fixed order block, SCSI, ATA,
fake (with `haveBlkZoned = true`, the normal build in which no platform
exclusion applies). In order: (1) if all allowed backends before `i` answer
`-ENXIO` and backend `i` is allowed and opens successfully, the handle's
backend is fixed to `i` and 0 is returned; (2) if backend `i` instead fails
with an error other than `-ENXIO`, that error is returned at once and no
backend is fixed — later backends are never consulted; (3) backends excluded
by the restrict mask are skipped: the result never depends on their open
outcome; (4) an empty restrict mask behaves as the full mask, allowing all
backends. -/
theorem c4_zbc_open_probe_order (opens : Fin 4 → Int) (flags : Nat) :
    (∀ i : Fin 4, zbc_drv_flag i.val &&& zbc_allowed_drv flags true ≠ 0 → opens i = 0 →
      (∀ j : Fin 4, j.val < i.val →
        zbc_drv_flag j.val &&& zbc_allowed_drv flags true ≠ 0 → opens j = -6) →
      zbc_open opens flags true = (0, some i.val)) ∧
    (∀ i : Fin 4, zbc_drv_flag i.val &&& zbc_allowed_drv flags true ≠ 0 →
      opens i ≠ 0 → opens i ≠ -6 →
      (∀ j : Fin 4, j.val < i.val →
        zbc_drv_flag j.val &&& zbc_allowed_drv flags true ≠ 0 → opens j = -6) →
      zbc_open opens flags true = (opens i, none)) ∧
    (∀ opens2 : Fin 4 → Int,
      (∀ j : Fin 4, zbc_drv_flag j.val &&& zbc_allowed_drv flags true ≠ 0 →
        opens j = opens2 j) →
      zbc_open opens flags true = zbc_open opens2 flags true) ∧
    (flags &&& ZBC_O_DRV_MASK_ALL = 0 →
      zbc_open opens flags true = zbc_open opens ZBC_O_DRV_MASK_ALL true) := by
  have hreach : ∀ (i : Fin 4),
      (∀ j : Fin 4, j.val < i.val →
        zbc_drv_flag j.val &&& zbc_allowed_drv flags true ≠ 0 → opens j = -6) →
      ∃ r : Int, zbc_open opens flags true =
        zbc_open_loop ((zbcTable opens).drop i.val)
          (zbc_allowed_drv flags true) i.val r := by
    intro i hprev
    have hpre : ∀ d ∈ (zbcTable opens).take i.val,
        d.flag &&& zbc_allowed_drv flags true = 0 ∨ d.zbd_open = -6 := by
      intro d hd
      fin_cases i <;> simp only [zbcTable, List.take] at hd
      · exact absurd hd (List.not_mem_nil d)
      · simp only [List.mem_singleton] at hd
        subst hd
        by_cases hs : ZBC_O_DRV_BLOCK &&& zbc_allowed_drv flags true = 0
        · exact Or.inl hs
        · exact Or.inr (hprev 0 (by decide) hs)
      · simp only [List.mem_cons, List.mem_singleton] at hd
        rcases hd with rfl | rfl | h
        · by_cases hs : ZBC_O_DRV_BLOCK &&& zbc_allowed_drv flags true = 0
          · exact Or.inl hs
          · exact Or.inr (hprev 0 (by decide) hs)
        · by_cases hs : ZBC_O_DRV_SCSI &&& zbc_allowed_drv flags true = 0
          · exact Or.inl hs
          · exact Or.inr (hprev 1 (by decide) hs)
        · exact absurd h (List.not_mem_nil d)
      · simp only [List.mem_cons, List.mem_singleton] at hd
        rcases hd with rfl | rfl | rfl | h
        · by_cases hs : ZBC_O_DRV_BLOCK &&& zbc_allowed_drv flags true = 0
          · exact Or.inl hs
          · exact Or.inr (hprev 0 (by decide) hs)
        · by_cases hs : ZBC_O_DRV_SCSI &&& zbc_allowed_drv flags true = 0
          · exact Or.inl hs
          · exact Or.inr (hprev 1 (by decide) hs)
        · by_cases hs : ZBC_O_DRV_ATA &&& zbc_allowed_drv flags true = 0
          · exact Or.inl hs
          · exact Or.inr (hprev 2 (by decide) hs)
        · exact absurd h (List.not_mem_nil d)
    obtain ⟨r, hr⟩ := zbc_open_loop_reach (zbc_allowed_drv flags true)
      ((zbcTable opens).take i.val) ((zbcTable opens).drop i.val) 0 (-19) hpre
    have hlen : ((zbcTable opens).take i.val).length = i.val := by
      have hi := i.isLt
      simp only [zbcTable, List.length_take, List.length_cons, List.length_nil]
      omega
    rw [hlen, Nat.zero_add] at hr
    refine ⟨r, ?_⟩
    rw [zbc_open_eq]
    conv_lhs => rw [← List.take_append_drop i.val (zbcTable opens)]
    exact hr
  refine ⟨?_, ?_, ?_, ?_⟩
  · intro i hflag h0 hprev
    obtain ⟨r, hr⟩ := hreach i hprev
    rw [hr]
    fin_cases i
    · exact zbc_open_loop_hit _ _ _ _ _ hflag h0
    · exact zbc_open_loop_hit _ _ _ _ _ hflag h0
    · exact zbc_open_loop_hit _ _ _ _ _ hflag h0
    · exact zbc_open_loop_hit _ _ _ _ _ hflag h0
  · intro i hflag h0 h6 hprev
    obtain ⟨r, hr⟩ := hreach i hprev
    rw [hr]
    fin_cases i
    · exact zbc_open_loop_fail _ _ _ _ _ hflag h0 h6
    · exact zbc_open_loop_fail _ _ _ _ _ hflag h0 h6
    · exact zbc_open_loop_fail _ _ _ _ _ hflag h0 h6
    · exact zbc_open_loop_fail _ _ _ _ _ hflag h0 h6
  · intro opens2 hopens
    rw [zbc_open_eq, zbc_open_eq]
    refine zbc_open_loop_congr _ _ _ ?_ 0 (-19)
    exact .cons ⟨rfl, fun h => hopens 0 h⟩
      (.cons ⟨rfl, fun h => hopens 1 h⟩
        (.cons ⟨rfl, fun h => hopens 2 h⟩
          (.cons ⟨rfl, fun h => hopens 3 h⟩ .nil)))
  · intro hmask
    have h1 : zbc_allowed_drv flags true = ZBC_O_DRV_MASK_ALL := by
      simp [zbc_allowed_drv, hmask]
    have h2 : zbc_allowed_drv ZBC_O_DRV_MASK_ALL true = ZBC_O_DRV_MASK_ALL := by decide
    rw [zbc_open_eq, zbc_open_eq, h1, h2]

/-- Witness for C4: with no restrict mask, block and SCSI answering
`-ENXIO` and ATA accepting, `zbc_open` fixes the ATA backend (index 2) and
returns 0. -/
theorem c4_witness :
    zbc_open (fun i => if i.val = 2 then 0 else -6) 0 true = (0, some 2) :=
  (c4_zbc_open_probe_order (fun i => if i.val = 2 then 0 else -6) 0).1
    2 (by decide) (by decide) (by decide)

/-- `ZBC_ATA_READ_LOG_DMA_EXT` (`src/lib/zbc.c:966`): the ATA READ LOG DMA
EXT command code placed in CDB byte 14 by `zbc_ata_read_log`. -/
def ZBC_ATA_READ_LOG_DMA_EXT_CMD : Nat := 0x47

/-- `ZBC_ATA_READ_DMA_EXT` (`src/lib/zbc.c:967`). -/
def ZBC_ATA_READ_DMA_EXT_CMD : Nat := 0x25

/-- `ZBC_ATA_WRITE_DMA_EXT` (`src/lib/zbc.c:968`). -/
def ZBC_ATA_WRITE_DMA_EXT_CMD : Nat := 0x35

/-- `ZBC_ATA_REPORT_ZONES_LOG_PAGE` (`src/lib/zbc.c:972`). -/
def ZBC_ATA_REPORT_ZONES_LOG_PAGE : Nat := 0x1A

/-- Modelled from the spec: the ATA pass-through CDB opcode, `0x85`
(`ZBC_SG_ATA16_CDB_OPCODE` in `zbc_sg.h`, not under `src/`). -/
def ZBC_SG_ATA16_CDB_OPCODE : Nat := 0x85

/-- `zbc_ata_get_word` (`src/lib/zbc.c:979-984`): 16-bit little-endian read
at byte offset `o` of a command data buffer (the buffer is a byte list;
bytes past its end read as 0, standing for untouched buffer memory). -/
def zbc_ata_get_word (buf : List Nat) (o : Nat) : Nat :=
  buf.getD o 0 ||| (buf.getD (o + 1) 0 <<< 8)

/-- `zbc_ata_get_dword` (`src/lib/zbc.c:989-996`): 32-bit little-endian
read. -/
def zbc_ata_get_dword (buf : List Nat) (o : Nat) : Nat :=
  buf.getD o 0 ||| (buf.getD (o + 1) 0 <<< 8) ||| (buf.getD (o + 2) 0 <<< 16) |||
    (buf.getD (o + 3) 0 <<< 24)

/-- `zbc_ata_get_qword` (`src/lib/zbc.c:1001-1012`): 64-bit little-endian
read. -/
def zbc_ata_get_qword (buf : List Nat) (o : Nat) : Nat :=
  buf.getD o 0 ||| (buf.getD (o + 1) 0 <<< 8) ||| (buf.getD (o + 2) 0 <<< 16) |||
    (buf.getD (o + 3) 0 <<< 24) ||| (buf.getD (o + 4) 0 <<< 32) |||
    (buf.getD (o + 5) 0 <<< 40) ||| (buf.getD (o + 6) 0 <<< 48) |||
    (buf.getD (o + 7) 0 <<< 56)

/-- The 16-byte CDB `zbc_ata_read_log` fills (`src/lib/zbc.c:1073-1085`)
for reading `page` of `log` with feature `opt` into a `bufsz`-byte buffer.
The C writes byte 4 only when `opt ≠ 0` over a zero-initialised CDB, which
is the same as always writing `opt`. -/
def zbc_ata_read_log_cdb (log page opt bufsz : Nat) : List Nat :=
  [ZBC_SG_ATA16_CDB_OPCODE,
   (0x6 <<< 1) ||| 0x01,
   0x0e,
   0,
   opt,
   ((bufsz / 512) >>> 8) &&& 0xff,
   (bufsz / 512) &&& 0xff,
   0,
   log,
   (page >>> 8) &&& 0xff,
   page &&& 0xff,
   0, 0, 0,
   ZBC_ATA_READ_LOG_DMA_EXT_CMD,
   0]

/-- The 16-byte CDB `zbc_ata_pread` fills (`src/lib/zbc.c:1463-1476`) for a
READ DMA EXT of `lba_count` logical blocks at `lba`
(`lba = zone->zbz_start + lba_ofst` at the call site). Bytes 5 and 6 use
`% 0xff` exactly as the source does. -/
def zbc_ata_pread_cdb (lba_count lba : Nat) : List Nat :=
  [ZBC_SG_ATA16_CDB_OPCODE,
   (0x6 <<< 1) ||| 0x01,
   0x1e,
   0, 0,
   (lba_count >>> 8) % 0xff,
   lba_count % 0xff,
   (lba >>> 24) &&& 0xff,
   lba &&& 0xff,
   (lba >>> 32) &&& 0xff,
   (lba >>> 8) &&& 0xff,
   (lba >>> 40) &&& 0xff,
   (lba >>> 16) &&& 0xff,
   1 <<< 6,
   ZBC_ATA_READ_DMA_EXT_CMD,
   0]

/-- The 16-byte CDB `zbc_ata_pwrite` fills (`src/lib/zbc.c:1557-1570`) for a
WRITE DMA EXT; same count/LBA layout as `zbc_ata_pread_cdb`. -/
def zbc_ata_pwrite_cdb (lba_count lba : Nat) : List Nat :=
  [ZBC_SG_ATA16_CDB_OPCODE,
   (0x6 <<< 1) ||| 0x01,
   0x16,
   0, 0,
   (lba_count >>> 8) % 0xff,
   lba_count % 0xff,
   (lba >>> 24) &&& 0xff,
   lba &&& 0xff,
   (lba >>> 32) &&& 0xff,
   (lba >>> 8) &&& 0xff,
   (lba >>> 40) &&& 0xff,
   (lba >>> 16) &&& 0xff,
   1 <<< 6,
   ZBC_ATA_WRITE_DMA_EXT_CMD,
   0]

/-- Decoder written from the claim's words: the count carried by an ATA
pass-through CDB is byte 5 (bits 15:8) and byte 6 (bits 7:0). -/
def ataCdbCount (cdb : List Nat) : Nat :=
  (cdb.getD 5 0 <<< 8) ||| cdb.getD 6 0

/-- Decoder written from the claim's words: the 48-bit LBA carried by an ATA
pass-through CDB, bytes interleaved as 7=31:24, 8=7:0, 9=39:32, 10=15:8,
11=47:40, 12=23:16. -/
def ataCdbLba (cdb : List Nat) : Nat :=
  cdb.getD 8 0 ||| (cdb.getD 10 0 <<< 8) ||| (cdb.getD 12 0 <<< 16) |||
    (cdb.getD 7 0 <<< 24) ||| (cdb.getD 9 0 <<< 32) ||| (cdb.getD 11 0 <<< 40)

/-- Device zone models (`enum zbc_dev_model`). -/
inductive ZbcDevModel where
  | drive_unknown
  | host_aware
  | host_managed
  | drive_managed
  | standard
deriving DecidableEq

/-- `zbc_ata_report_zones_pages` (`src/lib/zbc.c:1100-1119`): read the
general-purpose log directory (log 0x00) and return the 16-bit word at byte
offset `0x1A * 2` — the number of pages of the Report Zones log — or the
log-read error. `logRead` is the outcome of `zbc_ata_read_log` for log 0,
page 0. -/
def zbc_ata_report_zones_pages (logRead : Except Int (List Nat)) : Int :=
  match logRead with
  | .error e => e
  | .ok buf => Int.ofNat (zbc_ata_get_word buf (ZBC_ATA_REPORT_ZONES_LOG_PAGE * 2))

/-- `zbc_ata_classify` (`src/lib/zbc.c:1124-1236`) after a successful
EXECUTE DEVICE DIAGNOSTIC (the claim is about the inspection of the sense
reply, so the command has succeeded): `desc9`/`desc11` are sense descriptor
bytes 9 and 11, `logRead` the outcome the Report Zones page probe would use,
`model0` the model field before the call. The result is the pair of the
return value and the model field after the call. -/
def zbc_ata_classify (desc9 desc11 : Nat) (logRead : Except Int (List Nat))
    (model0 : ZbcDevModel) : Int × ZbcDevModel :=
  if desc9 = 0xCD ∧ desc11 = 0xAB then (0, .host_managed)
  else if desc9 = 0x00 ∧ desc11 = 0x00 then
    let ret := zbc_ata_report_zones_pages logRead
    if ret = 0 then (0, .drive_managed)
    else if 0 < ret then (ret, .host_aware)
    else (ret, model0)
  else (-6, model0)

/-- The classification step of `zbc_ata_get_info` (`src/lib/zbc.c:1241-1257`):
run `zbc_ata_classify`; a negative return is propagated; a drive-managed
model is rejected with `-ENXIO`; otherwise the model stands (the rest of
`zbc_ata_get_info` — READ CAPACITY and geometry checks — is beyond the
claims and not embedded). -/
def zbc_ata_get_info_classify (desc9 desc11 : Nat) (logRead : Except Int (List Nat))
    (model0 : ZbcDevModel) : Except Int ZbcDevModel :=
  let r := zbc_ata_classify desc9 desc11 logRead model0
  if r.1 < 0 then .error r.1
  else if r.2 = .drive_managed then .error (-6)
  else .ok r.2

/-- One zone descriptor parsed from 64 bytes at offset `o` of a Report Zones
log buffer (`src/lib/zbc.c:1672-1678`). -/
def zbc_ata_parse_zone (buf : List Nat) (o : Nat) : ZbcZone :=
  ⟨buf.getD o 0 &&& 0x0f,
   (buf.getD (o + 1) 0 >>> 4) &&& 0x0f,
   zbc_ata_get_qword buf (o + 8),
   zbc_ata_get_qword buf (o + 16),
   zbc_ata_get_qword buf (o + 24),
   buf.getD (o + 1) 0 &&& 0x01 != 0,
   false⟩

/-- The inner `for` loop of `zbc_ata_report_zones` (`src/lib/zbc.c:1670-1683`):
parse `k` consecutive 64-byte zone descriptors starting at offset `o`. -/
def zbc_ata_parse_zones (buf : List Nat) (o : Nat) : Nat → List ZbcZone
  | 0 => []
  | k + 1 => zbc_ata_parse_zone buf o :: zbc_ata_parse_zones buf (o + 64) k

/-- The `while (nz)` paging loop of `zbc_ata_report_zones`
(`src/lib/zbc.c:1666-1711`). `readLog page bufsz` is the outcome of
`zbc_ata_read_log(dev, 0x1A, page, ro & 0xf, buf, bufsz)` — the bytes the
device returns for that page, or its negative error; the wire command for
such a read is `zbc_ata_read_log_cdb`. `buf`/`buf_off`/`buf_nz` are the
current buffer, descriptor offset in it and descriptors to take from it;
`nz` the descriptors still owed; `acc` the zones parsed so far (`n` of the C
is `acc.length`); `page`/`buf_sz` as in the C. Fuel: every round with
`buf_nz ≥ 1` (true at every call site whenever `nz ≥ 1`) reduces `nz` by at
least one, so `nz + 1` rounds cannot be exceeded; callers pass that. -/
def zbc_ata_rz_loop (readLog : Nat → Nat → Except Int (List Nat)) :
    Nat → List Nat → Nat → Nat → Nat → List ZbcZone → Nat → Nat →
      Except Int (List ZbcZone)
  | 0, _, _, _, _, _, _, _ => .error (-1000)
  | fuel + 1, buf, buf_off, buf_nz, nz, acc, page, buf_sz =>
    let acc2 := acc ++ zbc_ata_parse_zones buf buf_off buf_nz
    let nz2 := nz - buf_nz
    if nz2 = 0 then .ok acc2
    else
      let page2 := page + buf_sz / 512
      let bs0 := nz2 / (512 / 64) * 512
      let buf_sz2 := if bs0 = 0 then 512 else if bs0 > 65536 then 65536 else bs0
      match readLog page2 buf_sz2 with
      | .error e => .error e
      | .ok buf2 =>
        zbc_ata_rz_loop readLog fuel buf2 0 (min (buf_sz2 / 64) nz2) nz2 acc2
          page2 buf_sz2

/-- `zbc_ata_report_zones` (`src/lib/zbc.c:1625-1726`) with a non-NULL
`zones` buffer of capacity `nr_zones`: read the first 512-byte page of log
0x1A, take the declared zone count from the 32-bit LE dword at offset 0,
clamp it to `nr_zones`, and parse descriptors — at most 7 from the first
page after its 64-byte header, then page by page. On success the result is
the zones written with `*nr_zones` = their number. -/
def zbc_ata_report_zones_fill (readLog : Nat → Nat → Except Int (List Nat))
    (nr_zones : Nat) : Except Int (List ZbcZone) :=
  match readLog 0 512 with
  | .error e => .error e
  | .ok buf =>
    let nz0 := zbc_ata_get_dword buf 0
    if nz0 = 0 then .ok []
    else
      let nz := min nz0 nr_zones
      let buf_nz := min ((512 - 64) / 64) nz
      zbc_ata_rz_loop readLog (nz + 1) buf 64 buf_nz nz [] 0 512

/-- `zbc_ata_report_zones` (`src/lib/zbc.c:1625-1726`) with a NULL `zones`
buffer: the declared count of the first page is returned as `*nr_zones`. -/
def zbc_ata_report_zones_count (readLog : Nat → Nat → Except Int (List Nat)) :
    Except Int Nat :=
  match readLog 0 512 with
  | .error e => .error e
  | .ok buf => .ok (zbc_ata_get_dword buf 0)

/-- C5: the ATA classifier maps the sense signature bytes (desc9, desc11) as
claimed: `(0xCD, 0xAB)` gives HOST_MANAGED; `(0x00, 0x00)` probes the Report
Zones log page count — a positive count gives HOST_AWARE, a zero count gives
DRIVE_MANAGED, which the classification step of `zbc_ata_get_info` then
rejects with `-ENXIO`; any other signature pair gives `-ENXIO` with the
model left unchanged. -/
theorem c5_ata_signature_classification (d9 d11 : Nat)
    (logRead : Except Int (List Nat)) (buf : List Nat) (m0 : ZbcDevModel) :
    (zbc_ata_classify 0xCD 0xAB logRead m0 = (0, .host_managed)) ∧
    (0 < zbc_ata_get_word buf (ZBC_ATA_REPORT_ZONES_LOG_PAGE * 2) →
      zbc_ata_classify 0 0 (.ok buf) m0 =
        (Int.ofNat (zbc_ata_get_word buf (ZBC_ATA_REPORT_ZONES_LOG_PAGE * 2)),
         .host_aware)) ∧
    (zbc_ata_get_word buf (ZBC_ATA_REPORT_ZONES_LOG_PAGE * 2) = 0 →
      zbc_ata_classify 0 0 (.ok buf) m0 = (0, .drive_managed) ∧
      zbc_ata_get_info_classify 0 0 (.ok buf) m0 = .error (-6)) ∧
    (¬ (d9 = 0xCD ∧ d11 = 0xAB) → ¬ (d9 = 0 ∧ d11 = 0) →
      zbc_ata_classify d9 d11 logRead m0 = (-6, m0) ∧
      zbc_ata_get_info_classify d9 d11 logRead m0 = .error (-6)) := by
  refine ⟨?_, ?_, ?_, ?_⟩
  · unfold zbc_ata_classify
    rw [if_pos (by decide)]
  · intro h
    have hpos : (0 : Int) <
        Int.ofNat (zbc_ata_get_word buf (ZBC_ATA_REPORT_ZONES_LOG_PAGE * 2)) :=
      Int.ofNat_pos.mpr h
    unfold zbc_ata_classify zbc_ata_report_zones_pages
    rw [if_neg (by decide), if_pos (by decide)]
    dsimp only
    rw [if_neg (by omega), if_pos hpos]
  · intro h
    have hcls : zbc_ata_classify 0 0 (.ok buf) m0 = (0, .drive_managed) := by
      have hz : Int.ofNat (zbc_ata_get_word buf (ZBC_ATA_REPORT_ZONES_LOG_PAGE * 2)) = 0 :=
        Int.ofNat_eq_zero.mpr h
      unfold zbc_ata_classify zbc_ata_report_zones_pages
      rw [if_neg (by decide), if_pos (by decide)]
      dsimp only
      rw [if_pos hz]
    refine ⟨hcls, ?_⟩
    unfold zbc_ata_get_info_classify
    rw [hcls]
    norm_num
  · intro h1 h2
    have hcls : zbc_ata_classify d9 d11 logRead m0 = (-6, m0) := by
      unfold zbc_ata_classify
      rw [if_neg h1, if_neg h2]
    refine ⟨hcls, ?_⟩
    unfold zbc_ata_get_info_classify
    rw [hcls]
    norm_num

/-- Witness for C5: a log directory showing one Report Zones page makes a
zero-signature drive HOST_AWARE; signature `(0x12, 0x34)` is rejected with
`-ENXIO`. -/
theorem c5_witness :
    zbc_ata_classify 0 0 (.ok (List.replicate 52 0 ++ [1])) .drive_unknown =
      (1, .host_aware) ∧
    zbc_ata_classify 0x12 0x34 (.ok []) .drive_unknown = (-6, .drive_unknown) :=
  ⟨(c5_ata_signature_classification 0x12 0x34 (.ok [])
      (List.replicate 52 0 ++ [1]) .drive_unknown).2.1 (by decide),
   ((c5_ata_signature_classification 0x12 0x34 (.ok [])
      (List.replicate 52 0 ++ [1]) .drive_unknown).2.2.2 (by decide) (by decide)).1⟩

/-- C6 (code bug): the claim — CDB byte 5 = count bits 15:8, byte 6 = count
bits 7:0, so decoding recovers the count — matches the source's own CDB
layout comment (`count (15:8)` / `count (7:0)`, `src/lib/zbc.c:1440-1442`),
but the code computes those bytes with `% 0xff` (modulo 255) instead of
`& 0xff`: at `lba_count = 255` both the read and the write CDB carry byte 6
= `255 % 255 = 0`, so the decoded count is 0, not 255. The LBA bytes, which
use `& 0xff`, do roundtrip. -/
theorem c6_ata_cdb_count_bytes_bug :
    ataCdbCount (zbc_ata_pread_cdb 255 0) = 0 ∧
    ataCdbCount (zbc_ata_pwrite_cdb 255 0) = 0 ∧
    (zbc_ata_pread_cdb 255 0).getD 6 0 = 0 ∧
    ataCdbLba (zbc_ata_pread_cdb 0 280223976814164) = 280223976814164 ∧
    ataCdbLba (zbc_ata_pwrite_cdb 0 280223976814164) = 280223976814164 := by
  decide

/-- C7 counterexample: the CDB built for a Report Zones log read carries
`0x47` (READ LOG DMA EXT) in byte 14, not `0xEC` as the claim states
(`0xEC` is `ZBC_ATA_IDENTIFY`, `src/lib/zbc.c:964`). -/
theorem c7_counterexample :
    ¬ (zbc_ata_read_log_cdb ZBC_ATA_REPORT_ZONES_LOG_PAGE 0 0 512).getD 14 0 = 0xEC := by
  decide

/-- C7 amended: every Report Zones log read issued by the ATA backend is an
ATA pass-through CDB whose command byte (byte 14) is `0x47` (READ LOG DMA
EXT — the only change from the claim, which said `0xEC`), whose byte 1
encodes DMA protocol 6 with ext=1, and whose byte 2 encodes t_dir=1,
byt_blk=1, t_length=0b10; the returned buffer is parsed with the number of
zones taken as a 32-bit little-endian value at offset 0 of a 64-byte header
and consecutive 64-byte zone descriptors starting at offset 64 (shown for a
reply fitting the first page; the count query returns the declared dword). -/
theorem c7_read_log_layout_amended :
    (∀ log page opt bufsz : Nat,
      (zbc_ata_read_log_cdb log page opt bufsz).getD 14 0 = 0x47 ∧
      (zbc_ata_read_log_cdb log page opt bufsz).getD 1 0 >>> 1 = 6 ∧
      (zbc_ata_read_log_cdb log page opt bufsz).getD 1 0 &&& 1 = 1 ∧
      ((zbc_ata_read_log_cdb log page opt bufsz).getD 2 0 >>> 3) &&& 1 = 1 ∧
      ((zbc_ata_read_log_cdb log page opt bufsz).getD 2 0 >>> 2) &&& 1 = 1 ∧
      (zbc_ata_read_log_cdb log page opt bufsz).getD 2 0 &&& 3 = 2) ∧
    (∀ (readLog : Nat → Nat → Except Int (List Nat)) (buf : List Nat) (nr : Nat),
      readLog 0 512 = .ok buf →
      zbc_ata_get_dword buf 0 ≠ 0 →
      zbc_ata_get_dword buf 0 ≤ 7 →
      zbc_ata_get_dword buf 0 ≤ nr →
      zbc_ata_report_zones_fill readLog nr =
        .ok (zbc_ata_parse_zones buf 64 (zbc_ata_get_dword buf 0))) ∧
    (∀ (readLog : Nat → Nat → Except Int (List Nat)) (buf : List Nat),
      readLog 0 512 = .ok buf →
      zbc_ata_report_zones_count readLog = .ok (zbc_ata_get_dword buf 0)) := by
  refine ⟨?_, ?_, ?_⟩
  · intro log page opt bufsz
    have h1 : (zbc_ata_read_log_cdb log page opt bufsz).getD 1 0 =
        (0x6 <<< 1) ||| 0x01 := rfl
    have h2 : (zbc_ata_read_log_cdb log page opt bufsz).getD 2 0 = 0x0e := rfl
    refine ⟨rfl, ?_, ?_, ?_, ?_, ?_⟩ <;> first
      | (rw [h1]; decide)
      | (rw [h2]; decide)
  · intro readLog buf nr h0 hnz h7 hnr
    have hmin1 : min (zbc_ata_get_dword buf 0) nr = zbc_ata_get_dword buf 0 :=
      Nat.min_eq_left hnr
    have hmin2 : min ((512 - 64) / 64) (zbc_ata_get_dword buf 0) =
        zbc_ata_get_dword buf 0 := by
      have h77 : (512 - 64) / 64 = 7 := by norm_num
      rw [h77]
      omega
    unfold zbc_ata_report_zones_fill
    rw [h0]
    dsimp only
    rw [if_neg hnz, hmin1, hmin2]
    simp only [zbc_ata_rz_loop, Nat.sub_self, List.nil_append]
    simp
  · intro readLog buf h0
    unfold zbc_ata_report_zones_count
    rw [h0]

/-- Witness for C7: a first page declaring two zones is parsed into the two
64-byte descriptors at offsets 64 and 128. -/
theorem c7_witness :
    zbc_ata_report_zones_fill (fun _ _ => .ok [2]) 5 =
      .ok (zbc_ata_parse_zones [2] 64 2) :=
  c7_read_log_layout_amended.2.1 (fun _ _ => .ok [2]) [2] 5 rfl
    (by decide) (by decide) (by decide)

/-- C8 counterexample: a first page whose declared zone count (8) times 64
descriptor bytes (512) exceeds the descriptor bytes of the 512-byte page
that was read (448 after the 64-byte header) — malformed per the claim —
does NOT make the ATA report-zones parser return a negative I/O error: it
reads a further log page and returns success (here 8 all-zero zones, the
remaining descriptor coming from the second page). -/
theorem c8_counterexample :
    zbc_ata_report_zones_fill
        (fun page _ => if page = 0 then .ok [8] else .ok []) 8 =
      .ok (List.replicate 8 zbcZone0) := rfl

/-- C8 amended: the ATA report-zones parser performs no malformed-payload
size validation of its own; a declared descriptor count exceeding the page
that was read simply causes further log-page reads, and the only errors it
signals are those returned by the log reads themselves, propagated
verbatim: a failing first-page read is returned by both the count and the
fill forms, and a failing continuation read (forced here by a first page
declaring more descriptors than it holds) is likewise returned. -/
theorem c8_no_payload_validation_amended :
    (∀ (e : Int) (nr : Nat),
      zbc_ata_report_zones_fill (fun _ _ => .error e) nr = .error e ∧
      zbc_ata_report_zones_count (fun _ _ => .error e) = .error e) ∧
    (∀ e : Int,
      zbc_ata_report_zones_fill
          (fun page _ => if page = 0 then .ok [8] else .error e) 8 =
        .error e) :=
  ⟨fun _ _ => ⟨rfl, rfl⟩, fun _ => rfl⟩

/-- Spec-side: the zones a device with zone table `Z` reports from start
sector `s` — the leading zones that end at or below `s` are dropped (ZBC
report semantics). Used to build a concrete consistent backend for C9. -/
def suffixFrom : List ZbcZone → Nat → List ZbcZone
  | [], _ => []
  | z :: t, s => if z.zbz_start + z.zbz_length ≤ s then suffixFrom t s else z :: t

/-- Spec-side: `chainedFrom s T` — the zones of `T` tile the address space
contiguously from sector `s` with positive lengths (the spec's
zone-partitioning invariant). -/
def chainedFrom : Nat → List ZbcZone → Prop
  | _, [] => True
  | s, z :: t => z.zbz_start = s ∧ 0 < z.zbz_length ∧ chainedFrom (s + z.zbz_length) t

instance chainedFromDec : (s : Nat) → (T : List ZbcZone) → Decidable (chainedFrom s T)
  | _, [] => .isTrue trivial
  | s, z :: t =>
    have : Decidable (chainedFrom (s + z.zbz_length) t) := chainedFromDec _ t
    inferInstanceAs (Decidable (_ ∧ _ ∧ _))

/-- Spec-side: the sector one past the last zone of a chain starting at
`s`. -/
def chainEnd : Nat → List ZbcZone → Nat
  | s, [] => s
  | s, z :: t => chainEnd (s + z.zbz_length) t

/-- Spec-side: the backend report-zones fill call induced by zone table `Z`
with a per-round buffer capacity of `cap` zones: at most `min limit cap`
zones from the start sector, as a backend honouring the `PARTIAL` paging
contract does. -/
def fillZ (Z : List ZbcZone) (cap : Nat) :
    Nat → Nat → Nat → Except Int (List ZbcZone) :=
  fun sector _ro limit => .ok ((suffixFrom Z sector).take (min limit cap))

/-- Spec-side: the backend count query induced by zone table `Z`. -/
def countZ (Z : List ZbcZone) : Nat → Nat → Except Int Nat :=
  fun sector _ro => .ok (suffixFrom Z sector).length

theorem suffixFrom_cons (z : ZbcZone) (t : List ZbcZone) (s : Nat) :
    suffixFrom (z :: t) s =
      if z.zbz_start + z.zbz_length ≤ s then suffixFrom t s else z :: t := rfl

theorem chainEnd_ge : ∀ (T : List ZbcZone) (s : Nat), s ≤ chainEnd s T := by
  intro T
  induction T with
  | nil => intro s; exact Nat.le_refl s
  | cons z t ih =>
    intro s
    exact Nat.le_trans (Nat.le_add_right s z.zbz_length) (ih (s + z.zbz_length))

theorem chainedFrom_take : ∀ (T : List ZbcZone) (k s : Nat),
    chainedFrom s T → chainedFrom s (T.take k) := by
  intro T
  induction T with
  | nil => intro k s _; simp [chainedFrom]
  | cons z t ih =>
    intro k s h
    cases k with
    | zero => exact trivial
    | succ k =>
      obtain ⟨h1, h2, h3⟩ := h
      exact ⟨h1, h2, ih k _ h3⟩

theorem chainedFrom_drop : ∀ (k : Nat) (T : List ZbcZone) (s : Nat),
    chainedFrom s T → chainedFrom (chainEnd s (T.take k)) (T.drop k) := by
  intro k
  induction k with
  | zero => intro T s h; exact h
  | succ k ih =>
    intro T s h
    cases T with
    | nil => exact trivial
    | cons z t =>
      obtain ⟨_, _, h3⟩ := h
      exact ih t (s + z.zbz_length) h3

theorem chainEnd_take_drop : ∀ (k : Nat) (T : List ZbcZone) (s : Nat),
    chainEnd (chainEnd s (T.take k)) (T.drop k) = chainEnd s T := by
  intro k
  induction k with
  | zero => intro T s; rfl
  | succ k ih =>
    intro T s
    cases T with
    | nil => rfl
    | cons z t => exact ih t (s + z.zbz_length)

theorem chainEnd_lt_of_ne_nil (T : List ZbcZone) (s : Nat)
    (hch : chainedFrom s T) (hne : T ≠ []) : s < chainEnd s T := by
  cases T with
  | nil => exact absurd rfl hne
  | cons z t =>
    obtain ⟨_, h2, _⟩ := hch
    calc s < s + z.zbz_length := by omega
    _ ≤ chainEnd (s + z.zbz_length) t := chainEnd_ge t _

theorem suffixFrom_mono (Z : List ZbcZone) : ∀ (s s2 : Nat), s ≤ s2 →
    suffixFrom Z s2 = suffixFrom (suffixFrom Z s) s2 := by
  induction Z with
  | nil => intro s s2 _; rfl
  | cons z t ih =>
    intro s s2 hle
    by_cases h : z.zbz_start + z.zbz_length ≤ s
    · rw [suffixFrom_cons z t s, if_pos h, suffixFrom_cons z t s2, if_pos (by omega)]
      exact ih s s2 hle
    · rw [suffixFrom_cons z t s, if_neg h]

theorem suffixFrom_chainEnd_take : ∀ (k : Nat) (T : List ZbcZone) (s : Nat),
    chainedFrom s T → k ≤ T.length →
    suffixFrom T (chainEnd s (T.take k)) = T.drop k := by
  intro k
  induction k with
  | zero =>
    intro T s hch _
    cases T with
    | nil => rfl
    | cons z t =>
      obtain ⟨h1, h2, _⟩ := hch
      show suffixFrom (z :: t) s = z :: t
      rw [suffixFrom_cons, if_neg (by omega)]
  | succ k ih =>
    intro T s hch hk
    cases T with
    | nil => simp at hk
    | cons z t =>
      obtain ⟨h1, h2, h3⟩ := hch
      show suffixFrom (z :: t) (chainEnd (s + z.zbz_length) (t.take k)) = t.drop k
      have hbig : z.zbz_start + z.zbz_length ≤ chainEnd (s + z.zbz_length) (t.take k) := by
        have := chainEnd_ge (t.take k) (s + z.zbz_length)
        omega
      rw [suffixFrom_cons, if_pos hbig]
      exact ih t (s + z.zbz_length) h3 (by simpa using hk)

theorem getLastD_irrel {α : Type} (l : List α) (d1 d2 : α) (h : l ≠ []) :
    l.getLastD d1 = l.getLastD d2 := by
  cases l with
  | nil => exact absurd rfl h
  | cons a t => rw [List.getLastD_cons, List.getLastD_cons]

theorem getLastD_append_right {α : Type} : ∀ (l1 l2 : List α) (d : α), l2 ≠ [] →
    (l1 ++ l2).getLastD d = l2.getLastD d := by
  intro l1
  induction l1 with
  | nil => intro l2 d _; rfl
  | cons a l1 ih =>
    intro l2 d h
    rw [List.cons_append, List.getLastD_cons, ih l2 a h]
    exact getLastD_irrel l2 a d h

theorem chain_last_end : ∀ (T : List ZbcZone) (s : Nat),
    chainedFrom s T → T ≠ [] →
    (T.getLastD zbcZone0).zbz_start + (T.getLastD zbcZone0).zbz_length =
      chainEnd s T := by
  intro T
  induction T with
  | nil => intro s _ h; exact absurd rfl h
  | cons z t ih =>
    intro s hch _
    obtain ⟨h1, _, h3⟩ := hch
    cases t with
    | nil =>
      rw [List.getLastD_cons, List.getLastD_nil, h1]
      rfl
    | cons w t2 =>
      rw [List.getLastD_cons,
        getLastD_irrel (w :: t2) z zbcZone0 (by simp)]
      exact ih (s + z.zbz_length) h3 (by simp)

/-- Paginated collection: over a backend induced by a chained zone table,
the report loop started at the head sector of the remaining suffix `T`, with
exactly `T.length` zones still wanted, gathers all of `T` — however small
the backend's per-round capacity `cap` (≥ 1) is. -/
theorem zbc_report_loop_collects (dev : ZbcDevice) (Z : List ZbcZone)
    (cap ro nrZones : Nat) (hcap : 0 < cap)
    (hfill : dev.zbd_report_zones_fill = fillZ Z cap) :
    ∀ (fuel : Nat) (T acc : List ZbcZone) (s : Nat),
      suffixFrom Z s = T → chainedFrom s T → chainEnd s T = dev.zbd_sectors →
      acc.length + T.length = nrZones → T.length < fuel →
      zbc_report_zones_loop dev ro nrZones fuel s acc = .ok (acc ++ T) := by
  intro fuel
  induction fuel with
  | zero => intro T acc s _ _ _ _ h; omega
  | succ fuel ih =>
    intro T acc s hsuf hch hend hlen hfuel
    cases T with
    | nil =>
      have hg : ¬ acc.length < nrZones := by simp at hlen; omega
      simp only [zbc_report_zones_loop, if_neg hg, List.append_nil]
    | cons z t =>
      have hg : acc.length < nrZones := by
        simp only [List.length_cons] at hlen; omega
      have hlim : nrZones - acc.length = (z :: t).length := by omega
      set k := min ((z :: t).length) cap with hk
      have hk1 : 1 ≤ k := by
        rw [hk]; simp only [List.length_cons]; omega
      have hkle : k ≤ (z :: t).length := Nat.min_le_left _ _
      have hcall : dev.zbd_report_zones_fill s
          (zbc_ro_mask ro ||| ZBC_RO_PARTIAL_FLAG) (nrZones - acc.length) =
          .ok ((z :: t).take k) := by
        rw [hfill]
        unfold fillZ
        rw [hsuf, hlim]
      have htklen : ((z :: t).take k).length = k := by
        rw [List.length_take]; omega
      have hne : (z :: t).take k ≠ [] := by
        intro hx
        rw [hx] at htklen
        simp at htklen
        omega
      have hchtake : chainedFrom s ((z :: t).take k) := chainedFrom_take _ k s hch
      have hlast : (((acc ++ (z :: t).take k)).getLastD zbcZone0).zbz_start +
          (((acc ++ (z :: t).take k)).getLastD zbcZone0).zbz_length =
          chainEnd s ((z :: t).take k) := by
        rw [getLastD_append_right acc _ zbcZone0 hne]
        exact chain_last_end _ s hchtake hne
      simp only [zbc_report_zones_loop, if_pos hg]
      rw [hcall]
      dsimp only
      rw [if_neg hne, hlast]
      by_cases hdone : k = (z :: t).length
      · have htk : (z :: t).take k = z :: t := by rw [hdone]; exact List.take_length _
        have hcapend : chainEnd s ((z :: t).take k) = dev.zbd_sectors := by
          rw [htk, hend]
        rw [if_pos (Nat.le_of_eq hcapend.symm), htk]
      · have hklt : k < (z :: t).length := by omega
        have hdropne : (z :: t).drop k ≠ [] := by
          intro hx
          have hlendrop := congrArg List.length hx
          rw [List.length_drop] at hlendrop
          simp only [List.length_nil] at hlendrop
          omega
        have hchdrop : chainedFrom (chainEnd s ((z :: t).take k)) ((z :: t).drop k) :=
          chainedFrom_drop k _ s hch
        have hlt : chainEnd s ((z :: t).take k) < dev.zbd_sectors := by
          have h1 : chainEnd s ((z :: t).take k) < chainEnd (chainEnd s ((z :: t).take k))
              ((z :: t).drop k) :=
            chainEnd_lt_of_ne_nil _ _ hchdrop hdropne
          rw [chainEnd_take_drop k (z :: t) s, hend] at h1
          exact h1
        rw [if_neg (by omega)]
        have hsuf2 : suffixFrom Z (chainEnd s ((z :: t).take k)) = (z :: t).drop k := by
          rw [suffixFrom_mono Z s (chainEnd s ((z :: t).take k)) (chainEnd_ge _ s), hsuf]
          exact suffixFrom_chainEnd_take k (z :: t) s hch hkle
        have hend2 : chainEnd (chainEnd s ((z :: t).take k)) ((z :: t).drop k) =
            dev.zbd_sectors := by
          rw [chainEnd_take_drop k (z :: t) s, hend]
        have hlen2 : (acc ++ (z :: t).take k).length + ((z :: t).drop k).length =
            nrZones := by
          rw [List.length_append, htklen, List.length_drop]
          simp only [List.length_cons] at hlen ⊢
          omega
        have hfuel2 : ((z :: t).drop k).length < fuel := by
          rw [List.length_drop]
          simp only [List.length_cons] at hfuel ⊢
          omega
        rw [ih ((z :: t).drop k) (acc ++ (z :: t).take k)
          (chainEnd s ((z :: t).take k)) hsuf2 hchdrop hend2 hlen2 hfuel2,
          List.append_assoc, List.take_append_drop]

/-- C9: on a device whose backend is induced by a chained zone table `Z`
(reporting, from any start sector, at most its per-round capacity of the
zones from that sector on), `zbc_list_zones` first performs the null-buffer
count query, allocates exactly that many descriptors, fills them with
`zbc_report_zones` and hands the buffer back: started at sector 0 it returns
exactly the table `Z`, whose length equals the count returned by the
null-buffer count query (stated for every reporting option `ro`, hence in
particular for the ALL filter the induced backend implements). -/
theorem c9_list_zones_complete (Z : List ZbcZone) (cap ro : Nat) (dev : ZbcDevice)
    (hcap : 0 < cap)
    (hch : chainedFrom 0 Z)
    (hfill : dev.zbd_report_zones_fill = fillZ Z cap)
    (hcount : dev.zbd_report_zones_count = countZ Z)
    (hsect : dev.zbd_sectors = chainEnd 0 Z)
    (htest : zbc_test_mode dev = false) :
    zbc_report_zones_null dev 0 ro = .ok Z.length ∧
    zbc_list_zones dev 0 ro = .ok Z := by
  have hsuf0 : suffixFrom Z 0 = Z := by
    have h := suffixFrom_chainEnd_take 0 Z 0 hch (Nat.zero_le _)
    simpa using h
  have hnull : ∀ ro2 : Nat, zbc_report_zones_null dev 0 ro2 = .ok Z.length := by
    intro ro2
    unfold zbc_report_zones_null
    cases Z with
    | nil =>
      rw [if_pos ⟨htest, by rw [hsect]; exact Nat.le_refl 0⟩]
      rfl
    | cons z t =>
      have hpos : 0 < dev.zbd_sectors := by
        rw [hsect]
        exact chainEnd_lt_of_ne_nil (z :: t) 0 hch (by simp)
      rw [if_neg (by omega), hcount]
      unfold countZ
      rw [hsuf0]
  refine ⟨hnull ro, ?_⟩
  have hreport : ∀ ro2 : Nat, Z ≠ [] →
      zbc_report_zones dev 0 ro2 Z.length = .ok Z := by
    intro ro2 hne
    have hpos : 0 < dev.zbd_sectors := by
      rw [hsect]
      exact chainEnd_lt_of_ne_nil Z 0 hch hne
    unfold zbc_report_zones
    rw [if_neg (by omega)]
    have h := zbc_report_loop_collects dev Z cap ro2 Z.length hcap hfill
      (Z.length + 1) Z [] 0 hsuf0 hch hsect.symm (by simp) (by omega)
    rw [h]
    simp
  unfold zbc_list_zones zbc_report_nr_zones
  rw [hnull (zbc_ro_mask ro)]
  dsimp only
  cases Z with
  | nil => norm_num
  | cons z t =>
    rw [if_neg (by simp), hreport (zbc_ro_mask ro) (by simp)]

/-- Zone table used by the C9 witness: two zones tiling 16 sectors. -/
def zonesW : List ZbcZone :=
  [⟨1, 1, 10, 0, 0, false, false⟩, ⟨2, 1, 6, 10, 10, false, false⟩]

/-- Device used by the C9 witness: backend induced by `zonesW` with a
one-zone-per-round buffer, forcing the loop to paginate. -/
def devZ : ZbcDevice :=
  ⟨16, 512, 512, 64, false, countZ zonesW, fillZ zonesW 1,
   fun n _ => Int.ofNat n, fun n _ => Int.ofNat n⟩

/-- Witness for C9: the count query says 2 and `zbc_list_zones` returns the
two zones, collected one per round. -/
theorem c9_witness :
    zbc_report_zones_null devZ 0 0 = .ok 2 ∧ zbc_list_zones devZ 0 0 = .ok zonesW :=
  c9_list_zones_complete zonesW 1 0 devZ (by decide) (by decide) rfl rfl
    (by decide) (by decide)
